import Mathlib

/-!
Shallow embedding of the Acrostic storage core (Rust) for specification
checking.

Source files embedded here:
- `src/Acrostic.Storage/src/block/mod.rs` — `Block`, `BlockHeader`,
  `Transaction`, `TransactionType`, `TransactionData`, `Block::new`,
  `Block::compute_merkle_root`.
- `src/Acrostic.Storage/src/storage/mod.rs` — `BlockchainStorage` with
  `new`, `add_transaction`, `get_latest_for_key` over two LevelDB stores.
- `src/Acrostic.Storage/src/ffi.rs` — `NBC_storeData` boundary function.
- `src/Nactions-BlockchainCore/src/crypto/mod.rs` — `encrypt`, `decrypt`.

Modelling conventions:
- Bytes are `Nat` values (< 256 where produced by the encoders); byte
  strings are `List Nat`.
- Rust `String` keys are `List Char`; LevelDB compares keys bytewise and
  UTF-8 is order-preserving on code points, so lexicographic order on
  `Char.toNat` matches LevelDB's bytewise comparator.
- `chrono::DateTime<Utc>` is modelled by its `timestamp_millis()` value as
  an `Int`.  Its serde form (a string under bincode) is modelled as the
  length-prefixed decimal rendering of those milliseconds; the claims
  depend only on encode/decode round trips and on decode failures of
  non-encodings, never on the exact date rendering.
- A LevelDB database is a `List (List Char × List Nat)` kept ascending in
  the key order by `dbPut` (LevelDB `put` overwrites an equal key).  An
  iterator created with `seek(prefix)` and `set_iterate_upper_bound(hi)`
  visits, in ascending key order, exactly the stored keys `k` with
  `prefix ≤ k` and `k < hi` (the upper bound is exclusive).
- `bincode::serialize` (v1, default configuration) uses fixed-size
  little-endian integers: `u32` enum variant tags, `u64` length prefixes
  for strings, vectors and maps.  `bincode::deserialize` tolerates
  trailing bytes.  `HashMap` iteration order is modelled as list order
  (all transactions in the claims carry an empty map).
- `blake3::hash` is implemented in full (compression function, chunk
  chaining, left-leaning binary tree) over `Nat` words reduced mod 2^32.
-/

/-- `TransactionType` from `block/mod.rs` (six variants). -/
inductive TransactionType where
  | StoreToken
  | UpdateToken
  | DeleteToken
  | StoreCache
  | UpdateCache
  | DeleteCache
deriving DecidableEq

/-- `TransactionData` from `block/mod.rs`: logical key, opaque value bytes,
string-to-string metadata map (modelled as an association list). -/
structure TransactionData where
  key : List Char
  value : List Nat
  metadata : List (List Char × List Char)
deriving DecidableEq

/-- `Transaction` from `block/mod.rs`; `timestamp` is the
`timestamp_millis()` view of the `DateTime<Utc>` field. -/
structure Transaction where
  transaction_type : TransactionType
  data : TransactionData
  timestamp : Int
  signature : List Nat
  public_key : List Nat
deriving DecidableEq

/-- `BlockHeader` from `block/mod.rs`; `previous_hash` and `merkle_root`
are the 32-byte `Hash` newtype from `crypto/mod.rs`, modelled as byte
lists. -/
structure BlockHeader where
  version : Nat
  previous_hash : List Nat
  merkle_root : List Nat
  timestamp : Int
  height : Nat
  validator_signature : Option (List Nat)
deriving DecidableEq

/-- `Block` from `block/mod.rs`. -/
structure Block where
  header : BlockHeader
  transactions : List Transaction
deriving DecidableEq

/-! ### Little-endian fixed-int encoders (bincode v1 default config) -/

/-- 4-byte little-endian encoding of a `u32` (bincode enum tag). -/
def encU32 (n : Nat) : List Nat :=
  [n % 256, n / 256 % 256, n / 65536 % 256, n / 16777216 % 256]

/-- 8-byte little-endian encoding of a `u64` (bincode length prefix). -/
def encU64 (n : Nat) : List Nat :=
  [n % 256, n / 256 % 256, n / 65536 % 256, n / 16777216 % 256,
   n / 4294967296 % 256, n / 1099511627776 % 256,
   n / 281474976710656 % 256, n / 72057594037927936 % 256]

/-- UTF-8 encoding of one character. -/
def utf8EncodeChar (c : Char) : List Nat :=
  let n := c.toNat
  if n < 128 then [n]
  else if n < 2048 then [192 + n / 64, 128 + n % 64]
  else if n < 65536 then [224 + n / 4096, 128 + n / 64 % 64, 128 + n % 64]
  else [240 + n / 262144, 128 + n / 4096 % 64, 128 + n / 64 % 64, 128 + n % 64]

/-- UTF-8 encoding of a character list (a Rust `String`'s bytes). -/
def utf8Encode (s : List Char) : List Nat :=
  (s.map utf8EncodeChar).flatten

/-- bincode encoding of a `String`: `u64` byte length, then UTF-8 bytes. -/
def encChars (s : List Char) : List Nat :=
  encU64 (utf8Encode s).length ++ utf8Encode s

/-- bincode encoding of a `Vec<u8>`: `u64` length, then the bytes. -/
def encBytes (v : List Nat) : List Nat :=
  encU64 v.length ++ v

/-- The decimal digit character for `n < 10`. -/
def digitChar (n : Nat) : Char := Char.ofNat (48 + n)

/-- Fuel-driven accumulator loop producing the decimal digits of a `Nat`
(most significant first); fuel `n + 1` always suffices. -/
def natDigitsGo : Nat → Nat → List Char → List Char
  | 0, _, acc => acc
  | fuel + 1, n, acc =>
    if n < 10 then digitChar n :: acc
    else natDigitsGo fuel (n / 10) (digitChar (n % 10) :: acc)

/-- Decimal rendering of a `Nat`. -/
def natChars (n : Nat) : List Char := natDigitsGo (n + 1) n []

/-- Decimal rendering of an `Int`, as Rust `i64: Display` produces it. -/
def decimalChars (i : Int) : List Char :=
  if i < 0 then '-' :: natChars i.natAbs else natChars i.toNat

/-- bincode variant index of a `TransactionType` (declaration order). -/
def txTypeTag : TransactionType → Nat
  | .StoreToken => 0
  | .UpdateToken => 1
  | .DeleteToken => 2
  | .StoreCache => 3
  | .UpdateCache => 4
  | .DeleteCache => 5

/-- Inverse of `txTypeTag`; also the `u32 -> TransactionType` match used
by the boundary functions in `ffi.rs`. -/
def tagTxType : Nat → Option TransactionType
  | 0 => some .StoreToken
  | 1 => some .UpdateToken
  | 2 => some .DeleteToken
  | 3 => some .StoreCache
  | 4 => some .UpdateCache
  | 5 => some .DeleteCache
  | _ => none

/-- bincode encoding of the `timestamp` field: the `DateTime<Utc>`
serializes as a string, modelled as the decimal milliseconds. -/
def encTimestamp (ts : Int) : List Nat :=
  encChars (decimalChars ts)

/-- bincode encoding of `TransactionData` (fields in declaration order:
`key`, `value`, `metadata`). -/
def encTxData (d : TransactionData) : List Nat :=
  encChars d.key ++ encBytes d.value ++ encU64 d.metadata.length ++
    (d.metadata.map (fun p => encChars p.1 ++ encChars p.2)).flatten

/-- `bincode::serialize(&transaction)` from `storage/mod.rs` line 59
(fields in declaration order). -/
def serializeTransaction (tx : Transaction) : List Nat :=
  encU32 (txTypeTag tx.transaction_type) ++ encTxData tx.data ++
    encTimestamp tx.timestamp ++ encBytes tx.signature ++ encBytes tx.public_key

/-! ### Decoders (`bincode::deserialize::<Transaction>`) -/

/-- Parse a little-endian `u32` from the head of a byte list. -/
def parseU32 : List Nat → Option (Nat × List Nat)
  | b0 :: b1 :: b2 :: b3 :: r =>
    some (b0 + 256 * b1 + 65536 * b2 + 16777216 * b3, r)
  | _ => none

/-- Parse a little-endian `u64` from the head of a byte list. -/
def parseU64 : List Nat → Option (Nat × List Nat)
  | b0 :: b1 :: b2 :: b3 :: b4 :: b5 :: b6 :: b7 :: r =>
    some (b0 + 256 * b1 + 65536 * b2 + 16777216 * b3 + 4294967296 * b4 +
      1099511627776 * b5 + 281474976710656 * b6 + 72057594037927936 * b7, r)
  | _ => none

/-- Take exactly `n` bytes, failing when fewer are available. -/
def parseExact (n : Nat) (l : List Nat) : Option (List Nat × List Nat) :=
  if n ≤ l.length then some (l.take n, l.drop n) else none

/-- A scalar value is a `Char` when it is a Unicode code point outside the
surrogate range. -/
def mkChar (n : Nat) : Option Char :=
  if n.isValidChar then some (Char.ofNat n) else none

/-- UTF-8 validation and decoding of a byte list, as Rust performs when
deserializing a `String` (continuation-byte, overlong and scalar-value
checks). -/
def utf8Decode : List Nat → Option (List Char)
  | [] => some []
  | b :: r =>
    if b < 128 then
      (utf8Decode r).bind fun cs => (mkChar b).map (· :: cs)
    else if b < 192 then none
    else if b < 224 then
      match r with
      | c1 :: r1 =>
        if 128 ≤ c1 ∧ c1 < 192 then
          let n := (b - 192) * 64 + (c1 - 128)
          if n < 128 then none
          else (utf8Decode r1).bind fun cs => (mkChar n).map (· :: cs)
        else none
      | [] => none
    else if b < 240 then
      match r with
      | c1 :: c2 :: r2 =>
        if 128 ≤ c1 ∧ c1 < 192 ∧ 128 ≤ c2 ∧ c2 < 192 then
          let n := (b - 224) * 4096 + (c1 - 128) * 64 + (c2 - 128)
          if n < 2048 then none
          else (utf8Decode r2).bind fun cs => (mkChar n).map (· :: cs)
        else none
      | _ => none
    else if b < 248 then
      match r with
      | c1 :: c2 :: c3 :: r3 =>
        if 128 ≤ c1 ∧ c1 < 192 ∧ 128 ≤ c2 ∧ c2 < 192 ∧ 128 ≤ c3 ∧ c3 < 192 then
          let n := (b - 240) * 262144 + (c1 - 128) * 4096 + (c2 - 128) * 64 + (c3 - 128)
          if n < 65536 then none
          else (utf8Decode r3).bind fun cs => (mkChar n).map (· :: cs)
        else none
      | _ => none
    else none

/-- Parse a bincode `String`: length prefix, raw bytes, UTF-8 decode. -/
def parseChars (l : List Nat) : Option (List Char × List Nat) :=
  match parseU64 l with
  | some (n, r) =>
    match parseExact n r with
    | some (bs, r2) =>
      match utf8Decode bs with
      | some cs => some (cs, r2)
      | none => none
    | none => none
  | none => none

/-- Parse a bincode `Vec<u8>`: length prefix then raw bytes. -/
def parseVecBytes (l : List Nat) : Option (List Nat × List Nat) :=
  match parseU64 l with
  | some (n, r) => parseExact n r
  | none => none

/-- Digit-by-digit decimal `Nat` parser (helper for the timestamp). -/
def parseDecNatGo : List Char → Nat → Option Nat
  | [], acc => some acc
  | c :: r, acc =>
    if 48 ≤ c.toNat ∧ c.toNat ≤ 57 then parseDecNatGo r (acc * 10 + (c.toNat - 48))
    else none

/-- Decimal `Nat` parser rejecting the empty string. -/
def parseDecNat : List Char → Option Nat
  | [] => none
  | c :: r => parseDecNatGo (c :: r) 0

/-- Decimal `Int` parser (optional leading minus sign). -/
def parseDecInt : List Char → Option Int
  | '-' :: rest => (parseDecNat rest).map (fun n => -(n : Int))
  | cs => (parseDecNat cs).map Int.ofNat

/-- Parse the serialized timestamp back to its milliseconds value. -/
def parseTimestamp (l : List Nat) : Option (Int × List Nat) :=
  match parseChars l with
  | some (cs, r) =>
    match parseDecInt cs with
    | some i => some (i, r)
    | none => none
  | none => none

/-- Parse `n` metadata pairs. -/
def parseMetaGo : Nat → List Nat → Option (List (List Char × List Char) × List Nat)
  | 0, l => some ([], l)
  | n + 1, l =>
    match parseChars l with
    | some (k, r) =>
      match parseChars r with
      | some (v, r2) =>
        match parseMetaGo n r2 with
        | some (ps, r3) => some ((k, v) :: ps, r3)
        | none => none
      | none => none
    | none => none

/-- Parse a bincode `TransactionData`. -/
def parseTxData (l : List Nat) : Option (TransactionData × List Nat) :=
  match parseChars l with
  | some (k, r) =>
    match parseVecBytes r with
    | some (v, r2) =>
      match parseU64 r2 with
      | some (n, r3) =>
        match parseMetaGo n r3 with
        | some (m, r4) => some ({ key := k, value := v, metadata := m }, r4)
        | none => none
      | none => none
    | none => none
  | none => none

/-- Parse a bincode `TransactionType` (a `u32` variant tag). -/
def parseTxType (l : List Nat) : Option (TransactionType × List Nat) :=
  match parseU32 l with
  | some (n, r) =>
    match tagTxType n with
    | some t => some (t, r)
    | none => none
  | none => none

/-- Parse a bincode `Transaction` (fields in declaration order). -/
def parseTransaction (l : List Nat) : Option (Transaction × List Nat) :=
  match parseTxType l with
  | some (t, r) =>
    match parseTxData r with
    | some (d, r2) =>
      match parseTimestamp r2 with
      | some (ts, r3) =>
        match parseVecBytes r3 with
        | some (sg, r4) =>
          match parseVecBytes r4 with
          | some (pk, r5) =>
            some ({ transaction_type := t, data := d, timestamp := ts,
                    signature := sg, public_key := pk }, r5)
          | none => none
        | none => none
      | none => none
    | none => none
  | none => none

/-- `bincode::deserialize::<Transaction>(&value)` from `storage/mod.rs`
line 87 (trailing bytes are tolerated). -/
def deserializeTransaction (l : List Nat) : Option Transaction :=
  (parseTransaction l).map (·.1)

/-! ### The LevelDB stores (`storage/mod.rs`) -/

/-- One LevelDB database: an association list kept ascending in key
order, as the on-disk sorted keyspace is. -/
abbrev Db := List (List Char × List Nat)

/-- Bytewise lexicographic strict order on keys (LevelDB's default
comparator; UTF-8 preserves code-point order, so comparing `Char.toNat`
sequences agrees with comparing the encoded bytes). -/
def lexLt : List Char → List Char → Bool
  | _, [] => false
  | [], _ :: _ => true
  | a :: as, b :: bs =>
    if a.toNat < b.toNat then true
    else if b.toNat < a.toNat then false
    else lexLt as bs

/-- LevelDB `put`: insert in key order, overwriting an equal key. -/
def dbPut : Db → List Char → List Nat → Db
  | [], k, v => [(k, v)]
  | (k2, v2) :: rest, k, v =>
    if lexLt k k2 then (k, v) :: (k2, v2) :: rest
    else if k = k2 then (k, v) :: rest
    else (k2, v2) :: dbPut rest k v

/-- LevelDB `get`. -/
def dbGet : Db → List Char → Option (List Nat)
  | [], _ => none
  | (k2, v2) :: rest, k => if k = k2 then some v2 else dbGet rest k

/-- `BlockchainStorage` from `storage/mod.rs`: the two LevelDB databases
plus the in-memory head hash read at open time. -/
structure BlockchainStorage where
  blocks_db : Db
  transactions_db : Db
  head_hash : Option (List Nat)
deriving DecidableEq

/-- `BlockchainStorage::new` (lines 21-47): opens (or creates) the two
stores — modelled by their initial contents — and reads the `"HEAD"` key
of the blocks store into `head_hash`.  Directory creation and store-open
failures are outside the model (the claims concern the open state). -/
def BlockchainStorage.new (blocks transactions : Db) : BlockchainStorage :=
  { blocks_db := blocks
    transactions_db := transactions
    head_hash := dbGet blocks "HEAD".data }

/-- The composite store key `format!("tx:{}:{}", key, now_ms)` written by
`add_transaction` (line 58). -/
def storeKey (k : List Char) (now_ms : Int) : List Char :=
  "tx:".data ++ k ++ ':' :: decimalChars now_ms

/-- `BlockchainStorage::add_transaction` (lines 50-66): serialize the
transaction and `put` it under `"tx:<key>:<now_ms>"` in the transactions
store.  `now_ms` stands for `chrono::Utc::now().timestamp_millis()`; the
store write succeeds in the model, matching the `Ok(())` path. -/
def BlockchainStorage.add_transaction (s : BlockchainStorage)
    (transaction : Transaction) (now_ms : Int) : BlockchainStorage :=
  { s with transactions_db := dbPut s.transactions_db (storeKey transaction.data.key now_ms) (serializeTransaction transaction) }

/-- The seek target `format!("tx:{}", key)` of `get_latest_for_key`
(line 74). -/
def scanLower (key : List Char) : List Char := "tx:".data ++ key

/-- The exclusive iteration upper bound `format!("tx:{}:", key)` of
`get_latest_for_key` (line 78). -/
def scanUpper (key : List Char) : List Char := "tx:".data ++ key ++ [':']

/-- Whether a stored key is visited by the scan: at or after the seek
position and strictly below the upper bound. -/
def inScanRange (key k : List Char) : Bool :=
  !lexLt k (scanLower key) && lexLt k (scanUpper key)

/-- The entries the iterator yields, in ascending key order. -/
def rangeEntries (db : Db) (key : List Char) : Db :=
  db.filter (fun e => inScanRange key e.1)

/-- One iteration of the `while let` loop of `get_latest_for_key`
(lines 86-97): deserialize the value, skip on failure, keep the record
when its type matches and its timestamp strictly exceeds the running
`latest_time` (initially `0`). -/
def entryStep (tx_type : TransactionType) (acc : Option Transaction × Int)
    (e : List Char × List Nat) : Option Transaction × Int :=
  match deserializeTransaction e.2 with
  | some tx =>
    if tx.transaction_type = tx_type then
      if acc.2 < tx.timestamp then (some tx, tx.timestamp) else acc
    else acc
  | none => acc

/-- The whole scan loop: fold `entryStep` over the visited entries from
the initial state `(None, 0)` and return the `latest` component. -/
def scanLatest (tx_type : TransactionType) (entries : Db) : Option Transaction :=
  (entries.foldl (entryStep tx_type) (none, 0)).1

/-- `BlockchainStorage::get_latest_for_key` (lines 69-100): bounded
ascending scan; the function body has no error path after the iterator is
created, so the result is always `Ok`. -/
def BlockchainStorage.get_latest_for_key (s : BlockchainStorage)
    (key : List Char) (tx_type : TransactionType) :
    Except String (Option Transaction) :=
  Except.ok (scanLatest tx_type (rangeEntries s.transactions_db key))

/-! ### Crypto layer (`Nactions-BlockchainCore/src/crypto/mod.rs`) -/

/-- `encrypt` (lines 34-38): placeholder that returns the input bytes
unchanged, ignoring the public key. -/
def encrypt (data : List Nat) (public_key : List Nat) : List Nat :=
  data

/-- `decrypt` (lines 41-45): placeholder that wraps the input bytes in
`Some`, ignoring the private key. -/
def decrypt (encrypted_data : List Nat) (private_key : List Nat) : Option (List Nat) :=
  some encrypted_data

/-! ### BLAKE3 (`blake3::hash`, used by `Block::compute_merkle_root`) -/

/-- Addition of 32-bit words. -/
def add32 (a b : Nat) : Nat := (a + b) % 4294967296

/-- Right rotation of a 32-bit word by `n` places (the two summands
occupy disjoint bit ranges). -/
def rotr32 (x n : Nat) : Nat := x / 2 ^ n + x % 2 ^ n * 2 ^ (32 - n)

/-- The BLAKE3 initialization vector (the SHA-256 IV words). -/
def blake3IV : List Nat :=
  [1779033703, 3144134277, 1013904242, 2773480762,
   1359893119, 2600822924, 528734635, 1541459225]

/-- The BLAKE3 quarter-round `g` acting on state positions
`a b c d` with message words `mx my`. -/
def gFun (v : List Nat) (a b c d mx my : Nat) : List Nat :=
  let va := add32 (add32 (v.getD a 0) (v.getD b 0)) mx
  let vd := rotr32 ((v.getD d 0) ^^^ va) 16
  let vc := add32 (v.getD c 0) vd
  let vb := rotr32 ((v.getD b 0) ^^^ vc) 12
  let va2 := add32 (add32 va vb) my
  let vd2 := rotr32 (vd ^^^ va2) 8
  let vc2 := add32 vc vd2
  let vb2 := rotr32 (vb ^^^ vc2) 7
  ((((v.set a va2).set b vb2).set c vc2).set d vd2)

/-- One BLAKE3 round: `g` over the four columns then the four
diagonals. -/
def roundFun (v m : List Nat) : List Nat :=
  let v1 := gFun v 0 4 8 12 (m.getD 0 0) (m.getD 1 0)
  let v2 := gFun v1 1 5 9 13 (m.getD 2 0) (m.getD 3 0)
  let v3 := gFun v2 2 6 10 14 (m.getD 4 0) (m.getD 5 0)
  let v4 := gFun v3 3 7 11 15 (m.getD 6 0) (m.getD 7 0)
  let v5 := gFun v4 0 5 10 15 (m.getD 8 0) (m.getD 9 0)
  let v6 := gFun v5 1 6 11 12 (m.getD 10 0) (m.getD 11 0)
  let v7 := gFun v6 2 7 8 13 (m.getD 12 0) (m.getD 13 0)
  gFun v7 3 4 9 14 (m.getD 14 0) (m.getD 15 0)

/-- The BLAKE3 message word permutation applied between rounds. -/
def permuteMsg (m : List Nat) : List Nat :=
  [2, 6, 3, 10, 7, 0, 4, 13, 1, 11, 12, 5, 9, 14, 15, 8].map (fun i => m.getD i 0)

/-- The BLAKE3 compression function: 16 output words from a chaining
value, a 16-word message block, a 64-bit counter, the block length and
the flags. -/
def compress (cv m : List Nat) (t blen flags : Nat) : List Nat :=
  let v0 := cv ++ blake3IV.take 4 ++ [t % 4294967296, t / 4294967296 % 4294967296, blen, flags]
  let m1 := m
  let v1 := roundFun v0 m1
  let m2 := permuteMsg m1
  let v2 := roundFun v1 m2
  let m3 := permuteMsg m2
  let v3 := roundFun v2 m3
  let m4 := permuteMsg m3
  let v4 := roundFun v3 m4
  let m5 := permuteMsg m4
  let v5 := roundFun v4 m5
  let m6 := permuteMsg m5
  let v6 := roundFun v5 m6
  let m7 := permuteMsg m6
  let v7 := roundFun v6 m7
  (List.range 16).map fun i =>
    if i < 8 then (v7.getD i 0) ^^^ (v7.getD (i + 8) 0)
    else (v7.getD i 0) ^^^ (cv.getD (i - 8) 0)

/-- The first eight words of a compression: the chaining value, and also
the first 32 output bytes at the root. -/
def compressCV (cv m : List Nat) (t blen flags : Nat) : List Nat :=
  (compress cv m t blen flags).take 8

/-- One little-endian word from the head of a (zero-padded) byte list. -/
def word4 (l : List Nat) : Nat :=
  l.getD 0 0 + 256 * l.getD 1 0 + 65536 * l.getD 2 0 + 16777216 * l.getD 3 0

/-- The 16 little-endian message words of a (zero-padded) 64-byte
block. -/
def blockWords (l : List Nat) : List Nat :=
  (List.range 16).map (fun i => word4 (l.drop (4 * i)))

/-- Split a chunk into 64-byte blocks; a chunk of at most 64 bytes (the
empty chunk included) is a single block. -/
def toBlocks (l : List Nat) : List (List Nat) :=
  if h : l.length ≤ 64 then [l]
  else l.take 64 :: toBlocks (l.drop 64)
termination_by l.length
decreasing_by
  simp only [List.length_drop]
  omega

/-- Split the input into 1024-byte chunks; input of at most 1024 bytes
(the empty input included) is a single chunk. -/
def toChunks (l : List Nat) : List (List Nat) :=
  if h : l.length ≤ 1024 then [l]
  else l.take 1024 :: toChunks (l.drop 1024)
termination_by l.length
decreasing_by
  simp only [List.length_drop]
  omega

/-- Fold the blocks of one chunk: `CHUNK_START` (1) on the first block,
`CHUNK_END` (2) on the last, `ROOT` (8) on the last when the chunk is the
root. -/
def chunkBlocksGo (t : Nat) (rootFlag : Bool) :
    List Nat → List (List Nat) → Bool → List Nat
  | cv, [], _ => cv
  | cv, [b], first =>
    compressCV cv (blockWords b) t b.length
      ((if first then 1 else 0) + 2 + (if rootFlag then 8 else 0))
  | cv, b :: b2 :: bs, first =>
    chunkBlocksGo t rootFlag
      (compressCV cv (blockWords b) t 64 (if first then 1 else 0))
      (b2 :: bs) false

/-- The chaining value of chunk number `t` (32-byte output when it is the
root chunk). -/
def chunkCV (t : Nat) (chunk : List Nat) (rootFlag : Bool) : List Nat :=
  chunkBlocksGo t rootFlag blake3IV (toBlocks chunk) true

/-- A parent node: compress the two child chaining values with the
`PARENT` flag (4), plus `ROOT` (8) at the tree root. -/
def parentCV (l r : List Nat) (rootFlag : Bool) : List Nat :=
  compressCV blake3IV (l ++ r) 0 64 (4 + if rootFlag then 8 else 0)

/-- The BLAKE3 tree over the chunks starting at chunk index `idx`: the
left subtree takes the largest power of two of chunks strictly below the
total. -/
def hashTree (idx : Nat) (cs : List (List Nat)) (rootFlag : Bool) : List Nat :=
  match cs with
  | [] => blake3IV
  | [c] => chunkCV idx c rootFlag
  | c1 :: c2 :: rest =>
    let n := rest.length + 2
    let L := 2 ^ Nat.log2 (n - 1)
    parentCV (hashTree idx ((c1 :: c2 :: rest).take L) false)
      (hashTree (idx + L) ((c1 :: c2 :: rest).drop L) false) rootFlag
termination_by cs.length
decreasing_by
  · simp only [List.length_take, List.length_drop, List.length_cons]
    have h1 : 2 ^ Nat.log2 (rest.length + 2 - 1) ≤ rest.length + 1 := by
      have e : rest.length + 2 - 1 = rest.length + 1 := rfl
      rw [e]
      exact Nat.log2_self_le (by omega)
    have h2 : 0 < 2 ^ Nat.log2 (rest.length + 2 - 1) := pow_pos (by omega) _
    omega
  · simp only [List.length_take, List.length_drop, List.length_cons]
    have h1 : 2 ^ Nat.log2 (rest.length + 2 - 1) ≤ rest.length + 1 := by
      have e : rest.length + 2 - 1 = rest.length + 1 := rfl
      rw [e]
      exact Nat.log2_self_le (by omega)
    have h2 : 0 < 2 ^ Nat.log2 (rest.length + 2 - 1) := pow_pos (by omega) _
    omega

/-- Little-endian bytes of a word list. -/
def wordsToBytes (ws : List Nat) : List Nat :=
  ws.foldr (fun w acc => w % 256 :: w / 256 % 256 :: w / 65536 % 256 :: w / 16777216 % 256 :: acc) []

/-- `blake3::hash`: the 32-byte digest of a byte string. -/
def blake3Hash (input : List Nat) : List Nat :=
  wordsToBytes (hashTree 0 (toChunks input) true)

/-! ### Block construction (`block/mod.rs`) -/

/-- `bincode::serialize(transactions)` for a `Vec<Transaction>` — a `u64`
count followed by each serialized transaction.  The result type mirrors
the `Result` of `bincode::serialize`, which cannot fail on these types,
so the value is always `Except.ok`. -/
def serializeTxListR (txs : List Transaction) : Except String (List Nat) :=
  Except.ok (encU64 txs.length ++ (txs.map serializeTransaction).flatten)

/-- The `unwrap_or_default` fallback of `compute_merkle_root` (line 96):
hash the serialized bytes on success and the empty byte string on a
serialization error. -/
def merkleRootOfSerialized (r : Except String (List Nat)) : List Nat :=
  blake3Hash (match r with | .ok bs => bs | .error _ => [])

/-- `Block::compute_merkle_root` (lines 94-98). -/
def Block.compute_merkle_root (transactions : List Transaction) : List Nat :=
  merkleRootOfSerialized (serializeTxListR transactions)

/-- `Block::new` (lines 72-91); `now` stands for the `Utc::now()`
timestamp taken inside the constructor. -/
def Block.new (previous_hash : List Nat) (height : Nat)
    (transactions : List Transaction) (now : Int) : Block :=
  { header :=
      { version := 1
        previous_hash := previous_hash
        merkle_root := Block.compute_merkle_root transactions
        timestamp := now
        height := height
        validator_signature := none }
    transactions := transactions }

/-! ### Native boundary (`ffi.rs`) -/

/-- `NBC_storeData` (lines 44-103).  Null pointers are modelled as `none`
arguments; the readable bytes behind the data pointer are `d`, of which
`slice::from_raw_parts` exposes the first `data_len`.  `tx_now` and
`store_now` are the two separate `Utc::now()` readings (transaction
construction and store-key formation).  Returns the C `bool` and the
global ledger state after the call. -/
def NBC_storeData (st : Option BlockchainStorage) (key : Option (List Char))
    (data : Option (List Nat)) (data_len : Nat) (transaction_type : Nat)
    (tx_now store_now : Int) : Bool × Option BlockchainStorage :=
  match key, data with
  | some k, some d =>
    if data_len = 0 then (false, st)
    else
      match tagTxType transaction_type with
      | none => (false, st)
      | some tt =>
        let tx : Transaction :=
          { transaction_type := tt
            data := { key := k, value := d.take data_len, metadata := [] }
            timestamp := tx_now
            signature := []
            public_key := [] }
        match st with
        | some s => (true, some (s.add_transaction tx store_now))
        | none => (false, st)
  | _, _ => (false, st)

/-- Decidable equality for `Except` results (the `Result` values the
storage operations return). -/
instance {α β : Type} [DecidableEq α] [DecidableEq β] : DecidableEq (Except α β) :=
  fun a b =>
    match a, b with
    | .error x, .error y =>
      if h : x = y then isTrue (by rw [h]) else isFalse (by simp [h])
    | .ok x, .ok y =>
      if h : x = y then isTrue (by rw [h]) else isFalse (by simp [h])
    | .error _, .ok _ => isFalse (by simp)
    | .ok _, .error _ => isFalse (by simp)

/-! ### Operation sequences (for the frame property) -/

/-- The two ledger operations under specification. -/
inductive LedgerOp where
  | add (tx : Transaction) (now_ms : Int)
  | query (key : List Char) (tx_type : TransactionType)

/-- State effect of one operation: `add_transaction` updates the state,
`get_latest_for_key` takes `&self` and leaves it unchanged. -/
def applyOp (s : BlockchainStorage) : LedgerOp → BlockchainStorage
  | .add tx ms => s.add_transaction tx ms
  | .query _ _ => s

/-! ### Decomposition of the scan loop (for stating its contract) -/

/-- The record one visited value contributes: its deserialization when it
succeeds and the type matches, nothing otherwise. -/
def matchingTx (tx_type : TransactionType) (v : List Nat) : Option Transaction :=
  match deserializeTransaction v with
  | some tx => if tx.transaction_type = tx_type then some tx else none
  | none => none

/-- The successfully deserialized, type-matching records among a list of
visited values, in visit order. -/
def matchingTxs (tx_type : TransactionType) (vals : List (List Nat)) : List Transaction :=
  vals.filterMap (matchingTx tx_type)

/-- The `latest`/`latest_time` update applied to one matching record:
replace when the timestamp strictly exceeds the running maximum. -/
def stepTx (acc : Option Transaction × Int) (tx : Transaction) : Option Transaction × Int :=
  if acc.2 < tx.timestamp then (some tx, tx.timestamp) else acc

/-- The values the scan of `get_latest_for_key` visits, in visit order. -/
def visitedValues (s : BlockchainStorage) (key : List Char) : List (List Nat) :=
  (rangeEntries s.transactions_db key).map Prod.snd

/-! ### Concrete fixtures used by counterexamples and witnesses -/

/-- A `StoreToken` record for logical key `"A0"` (timestamp 5). -/
def txA0 : Transaction :=
  { transaction_type := .StoreToken
    data := { key := "A0".data, value := [9], metadata := [] }
    timestamp := 5
    signature := []
    public_key := [] }

/-- A `StoreToken` record for logical key `"A1"` (timestamp 5, distinct
value). -/
def txA1 : Transaction :=
  { transaction_type := .StoreToken
    data := { key := "A1".data, value := [2], metadata := [] }
    timestamp := 5
    signature := []
    public_key := [] }

/-- A `StoreToken` record for logical key `"AB"`. -/
def txAB : Transaction :=
  { transaction_type := .StoreToken
    data := { key := "AB".data, value := [4], metadata := [] }
    timestamp := 5
    signature := []
    public_key := [] }

/-! ## Lemmas about key ordering and the scan window -/

/-- Nothing is lexicographically below the empty key. -/
theorem lexLt_nil (a : List Char) : lexLt a [] = false := by
  cases a <;> rfl

/-- A common prefix cancels in the lexicographic comparison. -/
theorem lexLt_append_cancel (p a b : List Char) :
    lexLt (p ++ a) (p ++ b) = lexLt a b := by
  induction p with
  | nil => rfl
  | cons x xs ih =>
    simpa only [List.cons_append, lexLt, Nat.lt_irrefl, if_false] using ih

/-- A key never precedes one of its own prefixes. -/
theorem lexLt_append_right (u x : List Char) : lexLt (u ++ x) u = false := by
  have h := lexLt_append_cancel u x []
  simpa [lexLt_nil] using h

/-- Comparing against the single character `d`: a key starting with a
character at least `d` is not below `[d]`. -/
theorem lexLt_cons_single (c d : Char) (z : List Char) (h : d.toNat ≤ c.toNat) :
    lexLt (c :: z) [d] = false := by
  simp only [lexLt, lexLt_nil]
  have hA : ¬ c.toNat < d.toNat := by omega
  simp [hA]

/-- Any store key extending the scan's upper bound position with a
character at least `':'` lies at or above the upper bound. -/
theorem not_lt_scanUpper (key z : List Char) (c : Char) (h : ':'.toNat ≤ c.toNat) :
    lexLt (("tx:".data ++ key) ++ c :: z) (scanUpper key) = false := by
  have e : scanUpper key = ("tx:".data ++ key) ++ [':'] := by
    simp [scanUpper]
  rw [e, lexLt_append_cancel]
  exact lexLt_cons_single c ':' z h

/-- A key at or above the exclusive upper bound is not visited. -/
theorem inScanRange_of_not_lt_upper (key k : List Char)
    (h : lexLt k (scanUpper key) = false) : inScanRange key k = false := by
  simp [inScanRange, h]

/-- The composite key `add_transaction` writes for the queried logical
key itself sorts at or above the scan's upper bound: the scan never
visits it. -/
theorem inScanRange_storeKey_self (key : List Char) (ms : Int) :
    inScanRange key (storeKey key ms) = false := by
  apply inScanRange_of_not_lt_upper
  have e : storeKey key ms = ("tx:".data ++ key) ++ ':' :: decimalChars ms := by
    simp [storeKey]
  rw [e]
  exact not_lt_scanUpper key (decimalChars ms) ':' (le_refl _)

/-- The composite key written for a strict extension of the queried key
whose first extra character is at least `':'` is outside the scan
window. -/
theorem inScanRange_storeKey_ext (key rest : List Char) (c : Char) (ms : Int)
    (h : ':'.toNat ≤ c.toNat) :
    inScanRange key (storeKey (key ++ c :: rest) ms) = false := by
  apply inScanRange_of_not_lt_upper
  have e : storeKey (key ++ c :: rest) ms =
      ("tx:".data ++ key) ++ c :: (rest ++ ':' :: decimalChars ms) := by
    simp [storeKey]
  rw [e]
  exact not_lt_scanUpper key _ c h

/-- Inserting a key the filter rejects leaves the filtered entry list
unchanged (the inserted key may overwrite an equal, equally rejected
key). -/
theorem filter_dbPut (p : List Char → Bool) (db : Db) (k : List Char)
    (v : List Nat) (h : p k = false) :
    (dbPut db k v).filter (fun e => p e.1) = db.filter (fun e => p e.1) := by
  induction db with
  | nil => simp [dbPut, h]
  | cons e rest ih =>
    obtain ⟨k2, v2⟩ := e
    simp only [dbPut]
    by_cases h1 : lexLt k k2
    · simp [h1, List.filter_cons, h]
    · by_cases h2 : k = k2
      · subst h2
        simp [h1, List.filter_cons, h]
      · simp [h1, h2, List.filter_cons, ih]

/-- Appending a record whose composite key falls outside the scan window
of `key` does not change what `get_latest_for_key key` returns. -/
theorem get_latest_for_key_add_out (s : BlockchainStorage) (tx : Transaction)
    (ms : Int) (key : List Char) (t : TransactionType)
    (h : inScanRange key (storeKey tx.data.key ms) = false) :
    (s.add_transaction tx ms).get_latest_for_key key t =
      s.get_latest_for_key key t := by
  simp only [BlockchainStorage.get_latest_for_key, BlockchainStorage.add_transaction,
    rangeEntries]
  rw [filter_dbPut _ _ _ _ h]

/-! ## Lemmas about the scan loop -/

/-- One loop iteration, decomposed: contribute the matching record (if
any) through the `latest`-update step. -/
theorem entryStep_eq (tx_type : TransactionType) (acc : Option Transaction × Int)
    (e : List Char × List Nat) :
    entryStep tx_type acc e =
      match matchingTx tx_type e.2 with
      | some tx => stepTx acc tx
      | none => acc := by
  simp only [entryStep, matchingTx, stepTx]
  cases deserializeTransaction e.2 with
  | none => rfl
  | some tx =>
    by_cases ht : tx.transaction_type = tx_type <;> simp [ht]

/-- The loop over visited entries equals the `latest`-update fold over
the matching records alone. -/
theorem foldl_entryStep (tx_type : TransactionType) (entries : Db)
    (acc : Option Transaction × Int) :
    entries.foldl (entryStep tx_type) acc =
      (matchingTxs tx_type (entries.map Prod.snd)).foldl stepTx acc := by
  induction entries generalizing acc with
  | nil => rfl
  | cons e rest ih =>
    simp only [List.foldl_cons, List.map_cons, matchingTxs, List.filterMap_cons]
    rw [entryStep_eq]
    cases hm : matchingTx tx_type e.2 with
    | none => exact ih acc
    | some tx => simp only [List.foldl_cons]; exact ih (stepTx acc tx)

/-- When no record beats the running maximum, the fold is the identity. -/
theorem stepTx_stable (l : List Transaction) (a : Option Transaction) (m : Int)
    (h : ∀ tx ∈ l, tx.timestamp ≤ m) : l.foldl stepTx (a, m) = (a, m) := by
  induction l with
  | nil => rfl
  | cons x xs ih =>
    have hx : ¬ m < x.timestamp := not_lt.mpr (h x (by simp))
    simp only [List.foldl_cons, stepTx, hx, if_false]
    exact ih (fun tx htx => h tx (by simp [htx]))

/-- Characterization of the `latest`-update fold: when some record beats
the initial maximum `m`, the fold returns the first record attaining the
maximal timestamp — every earlier record is strictly below it and every
later one is at most it. -/
theorem stepTx_max (l : List Transaction) (a : Option Transaction) (m : Int)
    (h : ∃ tx ∈ l, m < tx.timestamp) :
    ∃ r l1 l2, l.foldl stepTx (a, m) = (some r, r.timestamp) ∧
      l = l1 ++ r :: l2 ∧ m < r.timestamp ∧
      (∀ tx ∈ l1, tx.timestamp < r.timestamp) ∧
      (∀ tx ∈ l2, tx.timestamp ≤ r.timestamp) := by
  induction l generalizing a m with
  | nil => simp at h
  | cons x xs ih =>
    by_cases hx : m < x.timestamp
    · have hstep : stepTx (a, m) x = (some x, x.timestamp) := by
        simp [stepTx, hx]
      by_cases hxs : ∃ tx ∈ xs, x.timestamp < tx.timestamp
      · obtain ⟨r, l1, l2, hfold, hdec, hm, h1, h2⟩ := ih (some x) x.timestamp hxs
        refine ⟨r, x :: l1, l2, ?_, by simp [hdec], lt_trans hx hm, ?_, h2⟩
        · simpa [List.foldl_cons, hstep] using hfold
        · intro tx htx
          rcases List.mem_cons.mp htx with heq | hmem
          · subst heq; exact hm
          · exact h1 tx hmem
      · push_neg at hxs
        refine ⟨x, [], xs, ?_, by simp, hx, by simp, hxs⟩
        simp only [List.foldl_cons, hstep]
        exact stepTx_stable xs (some x) x.timestamp hxs
    · have hstep : stepTx (a, m) x = (a, m) := by
        simp [stepTx, hx]
      have hxs : ∃ tx ∈ xs, m < tx.timestamp := by
        obtain ⟨tx, htx, hmt⟩ := h
        rcases List.mem_cons.mp htx with heq | hmem
        · subst heq; exact absurd hmt hx
        · exact ⟨tx, hmem, hmt⟩
      obtain ⟨r, l1, l2, hfold, hdec, hm, h1, h2⟩ := ih a m hxs
      refine ⟨r, x :: l1, l2, ?_, by simp [hdec], hm, ?_, h2⟩
      · simpa [List.foldl_cons, hstep] using hfold
      · intro tx htx
        rcases List.mem_cons.mp htx with heq | hmem
        · subst heq
          exact lt_of_le_of_lt (not_lt.mp hx) hm
        · exact h1 tx hmem

/-! ## Frame lemmas for operation sequences -/

/-- Neither operation touches the blocks store. -/
theorem applyOp_blocks (s : BlockchainStorage) (op : LedgerOp) :
    (applyOp s op).blocks_db = s.blocks_db := by
  cases op <;> rfl

/-- Neither operation touches the in-memory head hash. -/
theorem applyOp_head (s : BlockchainStorage) (op : LedgerOp) :
    (applyOp s op).head_hash = s.head_hash := by
  cases op <;> rfl

/-- Any sequence of the two operations preserves the blocks store and
the head hash. -/
theorem foldl_applyOp_frame (ops : List LedgerOp) (s : BlockchainStorage) :
    (ops.foldl applyOp s).blocks_db = s.blocks_db ∧
    (ops.foldl applyOp s).head_hash = s.head_hash := by
  induction ops generalizing s with
  | nil => exact ⟨rfl, rfl⟩
  | cons op rest ih =>
    simp only [List.foldl_cons]
    obtain ⟨hb, hh⟩ := ih (applyOp s op)
    exact ⟨hb.trans (applyOp_blocks s op), hh.trans (applyOp_head s op)⟩

/-! ## The claims -/

/-- C1: the claimed append/query round trip fails on the code.  A
`StoreToken` transaction with key `"A"` and value `[1,2,3]` is appended
to an open ledger whose transactions store holds no other record, yet
`get_latest_for_key("A", StoreToken)` returns `Ok(None)`: the record is
written under `"tx:A:<arrival_ms>"`, which sorts at or above the scan's
exclusive upper bound `"tx:A:"`, so the scan never visits it. -/
theorem claim1_roundtrip_returns_none (blocks : Db)
    (md : List (List Char × List Char)) (ts : Int) (sg pk : List Nat) (ms : Int) :
    ((BlockchainStorage.new blocks []).add_transaction
      { transaction_type := .StoreToken
        data := { key := "A".data, value := [1, 2, 3], metadata := md }
        timestamp := ts
        signature := sg
        public_key := pk } ms).get_latest_for_key "A".data .StoreToken =
      Except.ok none := by
  rw [get_latest_for_key_add_out _ _ _ _ _ (inScanRange_storeKey_self "A".data ms)]
  rfl

/-- C2: the claimed latest-wins behaviour fails on the code.  Two
`StoreCache` transactions for key `"A"` are appended (any timestamps),
yet `get_latest_for_key("A", StoreCache)` returns `Ok(None)` rather than
the later value: both records are written under keys at or above the
scan's exclusive upper bound `"tx:A:"`. -/
theorem claim2_latest_wins_returns_none (blocks : Db) (t1 t2 ms1 ms2 : Int)
    (v1 v2 : List Nat) :
    (((BlockchainStorage.new blocks []).add_transaction
        { transaction_type := .StoreCache
          data := { key := "A".data, value := v1, metadata := [] }
          timestamp := t1
          signature := []
          public_key := [] } ms1).add_transaction
        { transaction_type := .StoreCache
          data := { key := "A".data, value := v2, metadata := [] }
          timestamp := t2
          signature := []
          public_key := [] } ms2).get_latest_for_key "A".data .StoreCache =
      Except.ok none := by
  rw [get_latest_for_key_add_out _ _ _ _ _ (inScanRange_storeKey_self "A".data ms2),
    get_latest_for_key_add_out _ _ _ _ _ (inScanRange_storeKey_self "A".data ms1)]
  rfl

/-- C3 counterexample: the claim that no record appended under a strict
extension of the queried key is ever returned is false.  A `StoreToken`
record appended for key `"A0"` (of which `"A"` is a proper prefix) is
stored under `"tx:A0:5"`, which lies inside the scan window
`["tx:A", "tx:A:")` because `'0' < ':'`, and `get_latest_for_key("A",
StoreToken)` returns it. -/
theorem claim3_counterexample :
    ((BlockchainStorage.new [] []).add_transaction txA0 5).get_latest_for_key
      "A".data .StoreToken = Except.ok (some txA0) := by
  decide

/-- C3 (amended): a record appended under an extension of the queried
key whose first additional character is at least `':'` — such as the
spec's example `"AB"` — is outside the scan window and never affects
`get_latest_for_key` for the queried key.  (Extensions whose first
additional character is below `':'`, such as `"A0"`, do leak into the
scan.) -/
theorem claim3_prefix_isolation_amended (s : BlockchainStorage)
    (key rest : List Char) (c : Char) (tx : Transaction) (ms : Int)
    (t : TransactionType) (hkey : tx.data.key = key ++ c :: rest)
    (hc : ':'.toNat ≤ c.toNat) :
    (s.add_transaction tx ms).get_latest_for_key key t =
      s.get_latest_for_key key t := by
  apply get_latest_for_key_add_out
  rw [hkey]
  exact inScanRange_storeKey_ext key rest c ms hc

/-- Witness for C3 (amended) at the spec's own example: appending the
`"AB"`-keyed record leaves `get_latest_for_key("A", StoreToken)`
unchanged. -/
theorem claim3_witness :
    txAB.data.key = "A".data ++ 'B' :: [] ∧ ':'.toNat ≤ 'B'.toNat ∧
    ((BlockchainStorage.new [] []).add_transaction txAB 5).get_latest_for_key
        "A".data .StoreToken =
      (BlockchainStorage.new [] []).get_latest_for_key "A".data .StoreToken :=
  ⟨by decide, by decide,
    claim3_prefix_isolation_amended (BlockchainStorage.new [] []) "A".data []
      'B' txAB 5 .StoreToken (by decide) (by decide)⟩

/-- C4 counterexample: on equal greatest timestamps the scan does NOT
return the record it visits last.  Records `txA0` and `txA1` (equal
timestamp 5, distinct values) are visited in that order — the matching
list is `[txA0, txA1]`, so `txA1` holds the lexicographically greatest
store key — yet the first-visited `txA0` is returned, because the loop
replaces `latest` only on a strictly greater timestamp. -/
theorem claim4_counterexample :
    (((BlockchainStorage.new [] []).add_transaction txA0 5).add_transaction
        txA1 7).get_latest_for_key "A".data .StoreToken =
      Except.ok (some txA0) ∧
    matchingTxs .StoreToken
        (visitedValues
          (((BlockchainStorage.new [] []).add_transaction txA0 5).add_transaction
            txA1 7) "A".data) = [txA0, txA1] ∧
    txA0.timestamp = txA1.timestamp ∧ txA0 ≠ txA1 := by
  decide

/-- C4 (amended): among the successfully deserialized, type-matching
records the scan visits, provided some matching record has a positive
timestamp, `get_latest_for_key` returns the one with the greatest
timestamp; when two or more matching records share that greatest
timestamp, the one the scan visits FIRST (the lexicographically least
store key) is returned, because the loop's comparison is strict. -/
theorem claim4_latest_first_amended (s : BlockchainStorage) (key : List Char)
    (t : TransactionType)
    (h : ∃ tx ∈ matchingTxs t (visitedValues s key), 0 < tx.timestamp) :
    ∃ r l1 l2, s.get_latest_for_key key t = Except.ok (some r) ∧
      matchingTxs t (visitedValues s key) = l1 ++ r :: l2 ∧
      (∀ tx ∈ l1, tx.timestamp < r.timestamp) ∧
      (∀ tx ∈ l2, tx.timestamp ≤ r.timestamp) := by
  obtain ⟨r, l1, l2, hfold, hdec, _, h1, h2⟩ :=
    stepTx_max (matchingTxs t (visitedValues s key)) none 0 h
  refine ⟨r, l1, l2, ?_, hdec, h1, h2⟩
  simp only [BlockchainStorage.get_latest_for_key, scanLatest]
  rw [foldl_entryStep]
  simp only [visitedValues] at hfold
  rw [hfold]

/-- Witness for C4 (amended) on the two-record store of the
counterexample. -/
theorem claim4_witness :
    (∃ tx ∈ matchingTxs .StoreToken
        (visitedValues
          (((BlockchainStorage.new [] []).add_transaction txA0 5).add_transaction
            txA1 7) "A".data), 0 < tx.timestamp) ∧
    (∃ r l1 l2,
      (((BlockchainStorage.new [] []).add_transaction txA0 5).add_transaction
          txA1 7).get_latest_for_key "A".data .StoreToken =
        Except.ok (some r) ∧
      matchingTxs .StoreToken
          (visitedValues
            (((BlockchainStorage.new [] []).add_transaction txA0 5).add_transaction
              txA1 7) "A".data) = l1 ++ r :: l2 ∧
      (∀ tx ∈ l1, tx.timestamp < r.timestamp) ∧
      (∀ tx ∈ l2, tx.timestamp ≤ r.timestamp)) :=
  ⟨by decide,
    claim4_latest_first_amended
      (((BlockchainStorage.new [] []).add_transaction txA0 5).add_transaction txA1 7)
      "A".data .StoreToken (by decide)⟩

/-- C5: the scan is corruption-tolerant.  A stored record set containing
an undecodable value among other records yields exactly the result of
the same store without the undecodable record — each failing record is
silently skipped — and the call returns `Ok`, never an error, in the
presence of decode failures. -/
theorem claim5_corruption_tolerance (b : Db) (hh : Option (List Nat))
    (d1 d2 : Db) (gk : List Char) (gv : List Nat) (key : List Char)
    (t : TransactionType) (hbad : deserializeTransaction gv = none) :
    BlockchainStorage.get_latest_for_key ⟨b, d1 ++ (gk, gv) :: d2, hh⟩ key t =
      BlockchainStorage.get_latest_for_key ⟨b, d1 ++ d2, hh⟩ key t ∧
    ∃ o, BlockchainStorage.get_latest_for_key ⟨b, d1 ++ (gk, gv) :: d2, hh⟩ key t =
      Except.ok o := by
  have hskip : ∀ acc, entryStep t acc (gk, gv) = acc := by
    intro acc
    simp [entryStep, hbad]
  constructor
  · simp only [BlockchainStorage.get_latest_for_key, rangeEntries,
      List.filter_append, List.filter_cons]
    by_cases hg : inScanRange key gk
    · simp only [hg, if_pos]
      simp only [scanLatest, List.foldl_append, List.foldl_cons, hskip]
    · simp [hg]
  · exact ⟨_, rfl⟩

/-- Witness for C5: the empty byte string is undecodable, and inserting
it among two valid records changes nothing. -/
theorem claim5_witness :
    deserializeTransaction [] = none ∧
    (BlockchainStorage.get_latest_for_key
        ⟨[], [(storeKey "A0".data 5, serializeTransaction txA0)] ++
          ("tx:A0:6".data, []) ::
          [(storeKey "A1".data 7, serializeTransaction txA1)], none⟩
        "A".data .StoreToken =
      BlockchainStorage.get_latest_for_key
        ⟨[], [(storeKey "A0".data 5, serializeTransaction txA0)] ++
          [(storeKey "A1".data 7, serializeTransaction txA1)], none⟩
        "A".data .StoreToken ∧
    ∃ o, BlockchainStorage.get_latest_for_key
        ⟨[], [(storeKey "A0".data 5, serializeTransaction txA0)] ++
          ("tx:A0:6".data, []) ::
          [(storeKey "A1".data 7, serializeTransaction txA1)], none⟩
        "A".data .StoreToken = Except.ok o) :=
  ⟨by decide,
    claim5_corruption_tolerance [] none
      [(storeKey "A0".data 5, serializeTransaction txA0)]
      [(storeKey "A1".data 7, serializeTransaction txA1)]
      "tx:A0:6".data [] "A".data .StoreToken (by decide)⟩

/-- C6: over any sequence of `add_transaction` and `get_latest_for_key`
operations on an open ledger, the blocks store is never written and the
in-memory `head_hash` stays exactly the value read from the `"HEAD"` key
at open time. -/
theorem claim6_blocks_and_head_frame (ops : List LedgerOp)
    (blocks transactions : Db) :
    (ops.foldl applyOp (BlockchainStorage.new blocks transactions)).blocks_db =
      blocks ∧
    (ops.foldl applyOp (BlockchainStorage.new blocks transactions)).head_hash =
      dbGet blocks "HEAD".data := by
  obtain ⟨hb, hh⟩ := foldl_applyOp_frame ops (BlockchainStorage.new blocks transactions)
  exact ⟨hb, hh⟩

/-- C7: `Block::new` sets `version = 1`, no validator signature, the
given previous hash and height, the supplied creation time, and the
merkle root is the BLAKE3 hash of the bincode serialization of the
transaction list; for the empty list the merkle root is one fixed value
independent of every other argument (hence identical across calls and
runs), and the constructor is a pure function of its arguments. -/
theorem claim7_block_new_fields (prev : List Nat) (height : Nat)
    (txs : List Transaction) (now : Int) :
    (Block.new prev height txs now).header.version = 1 ∧
    (Block.new prev height txs now).header.validator_signature = none ∧
    (Block.new prev height txs now).header.previous_hash = prev ∧
    (Block.new prev height txs now).header.height = height ∧
    (Block.new prev height txs now).header.timestamp = now ∧
    (Block.new prev height txs now).header.merkle_root =
      blake3Hash (encU64 txs.length ++ (txs.map serializeTransaction).flatten) ∧
    (∀ (prev2 : List Nat) (height2 : Nat) (now2 : Int),
      (Block.new prev height ([] : List Transaction) now).header.merkle_root =
        (Block.new prev2 height2 [] now2).header.merkle_root) :=
  ⟨rfl, rfl, rfl, rfl, rfl, rfl, fun _ _ _ => rfl⟩

/-- C8: `encrypt` and `decrypt` are identity functions for every byte
string and any key arguments, matched or not; in particular the round
trip `decrypt (encrypt d pk) sk = some d` holds unconditionally. -/
theorem claim8_encrypt_decrypt_identity (d public_key private_key : List Nat) :
    encrypt d public_key = d ∧ decrypt d private_key = some d ∧
    decrypt (encrypt d public_key) private_key = some d :=
  ⟨rfl, rfl, rfl⟩

/-- C9: `NBC_storeData` returns `false` and leaves the global ledger
state untouched whenever the key pointer is null, the data pointer is
null, or the data length is zero — even when a ledger is open — so a
zero-length value can never be stored through the boundary. -/
theorem claim9_store_rejects_empty (st : Option BlockchainStorage)
    (key : Option (List Char)) (data : Option (List Nat)) (data_len : Nat)
    (transaction_type : Nat) (tx_now store_now : Int)
    (h : key = none ∨ data = none ∨ data_len = 0) :
    NBC_storeData st key data data_len transaction_type tx_now store_now =
      (false, st) := by
  rcases h with hk | hd | hl
  · subst hk
    cases data <;> rfl
  · subst hd
    cases key <;> rfl
  · subst hl
    cases key with
    | none => cases data <;> rfl
    | some k => cases data <;> rfl

/-- Witness for C9: with an open ledger, a zero data length is rejected
and the ledger is unchanged. -/
theorem claim9_witness :
    ((some "A".data : Option (List Char)) = none ∨
      (some [1, 2] : Option (List Nat)) = none ∨ (0 : Nat) = 0) ∧
    NBC_storeData (some (BlockchainStorage.new [] [])) (some "A".data)
        (some [1, 2]) 0 0 1 2 =
      (false, some (BlockchainStorage.new [] [])) :=
  ⟨Or.inr (Or.inr rfl),
    claim9_store_rejects_empty (some (BlockchainStorage.new [] []))
      (some "A".data) (some [1, 2]) 0 0 1 2 (Or.inr (Or.inr rfl))⟩

/-- C10: `compute_merkle_root` is a total function: it is the fallback
composition that hashes the serialized bytes on success, serialization
of a transaction list always succeeds (so `Block::new` never fails), and
on a hypothetical serialization error the fallback hashes the empty byte
string instead of raising. -/
theorem claim10_merkle_root_total (txs : List Transaction) :
    Block.compute_merkle_root txs = merkleRootOfSerialized (serializeTxListR txs) ∧
    (∀ e : String, merkleRootOfSerialized (Except.error e) = blake3Hash []) ∧
    (∃ bs, serializeTxListR txs = Except.ok bs ∧
      Block.compute_merkle_root txs = blake3Hash bs) :=
  ⟨rfl, fun _ => rfl, ⟨_, rfl, rfl⟩⟩
